import Mathlib

/-!
Verification of the Hybrid Search Orchestrator
(src/backend/app/services/hybrid_search.py).

The Python service is shallowly embedded: JSON-shaped extraction payloads
become the inductive type `JVal`; Python exceptions become `Except String`;
the external collaborators (language model, Qdrant vector store, Neo4j
graph store) become an explicit environment `Env` whose fields record each
call outcome; the calls a `search` invocation issues are recorded in an
explicit `CallEvent` list.  Similarity scores (Python floats compared with
the usual order) are modelled as rationals.
-/

/-- A JSON-like value, the shape of the structured LLM extraction payload
(`ExtractionFormat.entities` is declared as `Any`). -/
inductive JVal : Type where
  | str : String → JVal
  | num : Int → JVal
  | bool : Bool → JVal
  | null : JVal
  | arr : List JVal → JVal
  | obj : List (String × JVal) → JVal

/-- Python truthiness of a JSON value (used by the `or` fallback in
`item.get("name", "") or item.get("entity", "")`). -/
def truthy : JVal → Bool
  | .str s => !(s == "")
  | .num n => !(n == 0)
  | .bool b => b
  | .null => false
  | .arr xs => !xs.isEmpty
  | .obj kvs => !kvs.isEmpty

/-- Python `dict.get(key, default)`; dict keys are unique, so the first
matching key is the match. -/
def jget (kvs : List (String × JVal)) (key : String) (dflt : JVal) : JVal :=
  match kvs.find? (fun p => p.1 == key) with
  | some p => p.2
  | none => dflt

/-- Embeds `item.get("name", "") or item.get("entity", "")`:
Python `or` yields the first operand when truthy, else the second. -/
def nameOrEntity (kvs : List (String × JVal)) : JVal :=
  let n := jget kvs "name" (.str "")
  if truthy n then n else jget kvs "entity" (.str "")

/-- `all(isinstance(e, str) for e in entities_raw)` — the guard of shape
case 1 of `ExtractionFormat.flat_entities`. -/
def pyStrAll : List JVal → Bool
  | [] => true
  | .str _ :: rest => pyStrAll rest
  | _ :: _ => false

/-- Shape case 2 of `flat_entities`: collect `all_names` from a list whose
items are dicts (take the name alias) or strings; other items are skipped. -/
def collectNames : List JVal → List JVal
  | [] => []
  | .obj kvs :: rest => nameOrEntity kvs :: collectNames rest
  | .str s :: rest => .str s :: collectNames rest
  | _ :: rest => collectNames rest

/-- Shape case 3, inner loop: items of one category list; strings kept,
dicts contribute the name alias, anything else skipped. -/
def collectItems : List JVal → List JVal
  | [] => []
  | .str s :: rest => .str s :: collectItems rest
  | .obj kvs :: rest => nameOrEntity kvs :: collectItems rest
  | _ :: rest => collectItems rest

/-- Shape case 3, outer loop over `entities_raw.items()`: only categories
whose value is a list contribute. -/
def collectFromCategories : List (String × JVal) → List JVal
  | [] => []
  | (_, .arr items) :: rest => collectItems items ++ collectFromCategories rest
  | _ :: rest => collectFromCategories rest

/-- Python `str.strip()` on the common whitespace set: drop leading and
trailing whitespace characters.  Defined over the character list so that it
evaluates by kernel reduction. -/
def pyStrip (s : String) : String :=
  String.mk (((s.toList.dropWhile Char.isWhitespace).reverse.dropWhile
    Char.isWhitespace).reverse)

/-- Embeds the list comprehension `[e.strip() for e in xs if e.strip()]`.
Calling `.strip()` on a non-string raises `AttributeError`; that raise is
modelled as `Except.error`. -/
def stripFilter : List JVal → Except String (List String)
  | [] => .ok []
  | .str s :: rest => do
      let r ← stripFilter rest
      pure (if pyStrip s = "" then r else pyStrip s :: r)
  | _ :: _ => .error "AttributeError: strip on a non-string"

/-- `ExtractionFormat.flat_entities`, the Entity Normalizer: four shape
cases exactly as in the source (flat string list / mixed list / category
dict / anything else). -/
def flat_entities (v : JVal) : Except String (List String) :=
  match v with
  | .arr xs => if pyStrAll xs then stripFilter xs else stripFilter (collectNames xs)
  | .obj kvs => stripFilter (collectFromCategories kvs)
  | _ => .ok []

/-- The pre-strip list of collected raw name values, one arm per source
shape case; `flat_entities` is `stripFilter` of this list. -/
def collected (v : JVal) : List JVal :=
  match v with
  | .arr xs => if pyStrAll xs then xs else collectNames xs
  | .obj kvs => collectFromCategories kvs
  | _ => []

/-- One merged candidate of `_qdrant_match_entities`: the dict
`{"name": ..., "score": ..., "type": ...}`.  Scores are Python floats
compared by the usual order, modelled as rationals. -/
structure MatchedEntity : Type where
  name : String
  score : ℚ
  etype : String
deriving DecidableEq, Repr

/-- The metadata payload of one vector-store document: an optional standard
name and an optional type tag (`payload.get("name", ...)`,
`payload.get("type", "unknown")`). -/
structure DocMeta : Type where
  name : Option String
  dtype : Option String
deriving DecidableEq, Repr

/-- One Neo4j record after the duck-typed field adapter: the source name,
the relation label and the target name. -/
structure GraphRecord : Type where
  source : String
  rel : String
  target : String
deriving DecidableEq, Repr

/-- The value returned by `HybridSearchService.search`. -/
structure SearchResult : Type where
  context_text : String
  entities : List String
  matched_entities : List MatchedEntity
  graph_context : String
deriving DecidableEq, Repr

/-- An external call issued during one `search` invocation: the LLM
extraction call, one per-entity vector lookup with its `k`, or the one
graph query with its seed names. -/
inductive CallEvent : Type where
  | extractCall : String → CallEvent
  | vector : String → Nat → CallEvent
  | graph : List String → CallEvent
deriving DecidableEq, Repr

/-- The environment of one `search` call: the outcome each external
collaborator would produce.  `lookup i e` is the outcome of the i-th issued
vector lookup, querying entity `e`; `Except.error` models a raised
exception. -/
structure Env : Type where
  extractionResult : Except String JVal
  lookup : Nat → String → Except String (List (DocMeta × ℚ))
  hasVectorstore : Bool
  hasNeo4j : Bool
  graphResult : Except String (List GraphRecord)

/-- `_extract_entities`: run the extraction chain and flatten; the
`try/except` absorbs both a failing LLM call and a raising normalizer into
the empty list. -/
def extract_entities (env : Env) (query : String) : List String :=
  match env.extractionResult.bind flat_entities with
  | .ok l => l
  | .error _ => []

/-- The rows one successful lookup group contributes to `all_results`:
name falls back to the querying entity, type falls back to "unknown". -/
def rowsOf (origin_query : String) (group : List (DocMeta × ℚ)) :
    List MatchedEntity :=
  group.map (fun p => ⟨p.1.name.getD origin_query, p.2, p.1.dtype.getD "unknown"⟩)

/-- Pair each selected entity with the outcome of its lookup task, in task
order (`enumerate(results_groups)` with `origin_query = entities[i]`). -/
def lookupPairs (env : Env) :
    Nat → List String → List (String × Except String (List (DocMeta × ℚ)))
  | _, [] => []
  | i, e :: es => (e, env.lookup i e) :: lookupPairs env (i + 1) es

/-- Build `all_results`: groups that are exceptions are skipped (logged and
`continue`d); successful groups contribute their rows in order. -/
def buildAllResults :
    List (String × Except String (List (DocMeta × ℚ))) → List MatchedEntity
  | [] => []
  | (_, .error _) :: rest => buildAllResults rest
  | (e, .ok group) :: rest => rowsOf e group ++ buildAllResults rest

/-- One step of the `unique_results` dict loop.  The dict is keyed by
`r["name"]` and insertion-ordered; an existing key keeps its position and
is overwritten only on a strictly greater score, a new key is appended. -/
def upsert : List MatchedEntity → MatchedEntity → List MatchedEntity
  | [], r => [r]
  | x :: xs, r =>
      if x.name = r.name then (if r.score > x.score then r :: xs else x :: xs)
      else x :: upsert xs r

/-- The whole `unique_results` loop over `all_results`. -/
def dedupByName (rs : List MatchedEntity) : List MatchedEntity :=
  rs.foldl upsert []

/-- Descending-score comparison handed to the sort. -/
def scoreGE (a b : MatchedEntity) : Prop :=
  b.score ≤ a.score

instance : DecidableRel scoreGE :=
  fun a b => inferInstanceAs (Decidable (b.score ≤ a.score))

instance : IsTotal MatchedEntity scoreGE :=
  ⟨fun a b => le_total b.score a.score⟩

instance : IsTrans MatchedEntity scoreGE :=
  ⟨fun _ _ _ h1 h2 => le_trans h2 h1⟩

/-- `sorted(..., key=lambda x: x["score"], reverse=True)`.  Python sorted
is a stable sort; `List.insertionSort` is stable, hence a faithful model. -/
def sortDesc (rs : List MatchedEntity) : List MatchedEntity :=
  rs.insertionSort scoreGE

/-- `_qdrant_match_entities`: no vector store or no entities short-circuits
to `[]` with no lookup; otherwise fan out over the first three entities
(each lookup with `k=2`), skip failed groups, dedup by name keeping the
maximal score, sort by score descending, truncate to `top_k`.  Also
returns the list of issued lookup calls. -/
def qdrantMatch (env : Env) (entities : List String) (top_k : Nat) :
    List MatchedEntity × List CallEvent :=
  if env.hasVectorstore = false ∨ entities = [] then ([], [])
  else
    let sel := entities.take 3
    let all := buildAllResults (lookupPairs env 0 sel)
    ((sortDesc (dedupByName all)).take top_k,
      sel.map (fun e => CallEvent.vector e 2))

/-- The flat `all_results` list a call on `entities` builds. -/
def allResults (env : Env) (entities : List String) : List MatchedEntity :=
  buildAllResults (lookupPairs env 0 (entities.take 3))

/-- Replace a failed lookup outcome by an empty successful one. -/
def errToEmpty (o : Except String (List (DocMeta × ℚ))) :
    Except String (List (DocMeta × ℚ)) :=
  match o with
  | .error _ => .ok []
  | .ok g => .ok g

/-- Python `sep.join(parts)`. -/
def joinStr (sep : String) : List String → String
  | [] => ""
  | [x] => x
  | x :: xs => x ++ sep ++ joinStr sep xs

/-- Render one graph record: `f"{src} -[{rel}]-> {tgt}"`. -/
def renderRecord (r : GraphRecord) : String :=
  r.source ++ " -[" ++ r.rel ++ "]-> " ++ r.target

/-- `"\n".join(relations)` over the rendered records. -/
def renderRelations (records : List GraphRecord) : String :=
  joinStr "\n" (records.map renderRecord)

/-- `_neo4j_get_graph`: no driver or no matched entities short-circuits to
`""` with no query; otherwise one bounded Cypher query seeded by the first
three matched names.  A raising query degrades to `""`; zero records yield
the sentinel `"无直接关联信息"`; records are rendered newline-joined.  Also
returns the issued graph call. -/
def neo4jGetGraph (env : Env) (matched : List MatchedEntity) :
    String × List CallEvent :=
  if env.hasNeo4j = false ∨ matched = [] then ("", [])
  else
    let names := (matched.take 3).map (fun e => e.name)
    match env.graphResult with
    | .error _ => ("", [CallEvent.graph names])
    | .ok records =>
        if records = [] then ("无直接关联信息", [CallEvent.graph names])
        else (renderRelations records, [CallEvent.graph names])

/-- The entity line of the assembled context: the names of up to the first
three matched entities, comma-joined behind the label. -/
def entityLine (matched : List MatchedEntity) : String :=
  "涉及实体：" ++ joinStr ", " ((matched.take 3).map (fun e => e.name))

/-- The `context_parts` assembly at the end of `search`: the entity line
when `matched_entities` is truthy, then the graph section when
`graph_context` is truthy, newline-joined. -/
def assembleContext (matched : List MatchedEntity) (graph_context : String) :
    String :=
  joinStr "\n"
    ((if matched = [] then [] else [entityLine matched]) ++
      (if graph_context = "" then [] else ["知识图谱关系：\n" ++ graph_context]))

/-- `HybridSearchService.search`: extract, short-circuit on no entities,
match, expand, assemble.  Also returns the list of external calls issued,
in order. -/
def search (env : Env) (query : String) (top_k : Nat) :
    SearchResult × List CallEvent :=
  let entities := extract_entities env query
  if entities = [] then
    (⟨"", [], [], "无实体"⟩, [CallEvent.extractCall query])
  else
    let mv := qdrantMatch env entities top_k
    let gg := neo4jGetGraph env mv.1
    (⟨assembleContext mv.1 gg.1, entities, mv.1, gg.1⟩,
      CallEvent.extractCall query :: (mv.2 ++ gg.2))

/-- `_extract_entities` seen at the exception level: the fallible chain
invocation and the fallible normalizer sit inside the `try`, whose
`except Exception` arm returns `[]`. -/
def extract_entitiesE (env : Env) (query : String) :
    Except String (List String) :=
  match env.extractionResult.bind flat_entities with
  | .ok l => .ok l
  | .error _ => .ok []

/-- `_qdrant_match_entities` seen at the exception level: per-task
exceptions are already values (`asyncio.gather(..., return_exceptions=True)`)
and the merging loop is pure, so the stage body itself raises nothing. -/
def qdrantMatchE (env : Env) (entities : List String) (top_k : Nat) :
    Except String (List MatchedEntity × List CallEvent) :=
  .ok (qdrantMatch env entities top_k)

/-- `_neo4j_get_graph` seen at the exception level: the store query and
record processing sit inside the `try`, whose `except Exception` arm
returns `""`. -/
def neo4jGetGraphE (env : Env) (matched : List MatchedEntity) :
    Except String (String × List CallEvent) :=
  .ok (neo4jGetGraph env matched)

/-- `search` seen at the exception level: any exception escaping one of the
three stage wrappers would propagate to the caller as `Except.error`. -/
def searchE (env : Env) (query : String) (top_k : Nat) :
    Except String SearchResult :=
  match extract_entitiesE env query with
  | .error e => .error e
  | .ok entities =>
      if entities = [] then .ok ⟨"", [], [], "无实体"⟩
      else
        match qdrantMatchE env entities top_k with
        | .error e => .error e
        | .ok mv =>
            match neo4jGetGraphE env mv.1 with
            | .error e => .error e
            | .ok gg => .ok ⟨assembleContext mv.1 gg.1, entities, mv.1, gg.1⟩

/-! ### Concrete fixtures used by witnesses and counterexamples -/

/-- An environment in which every external collaborator fails. -/
def envFail : Env :=
  ⟨.error "llm down", fun _ _ => .error "qdrant down", true, true,
    .error "neo4j down"⟩

/-- One extracted entity whose lookup succeeds with two neighbors; any
further lookup fails; the graph query returns zero records. -/
def envOne : Env :=
  ⟨.ok (.arr [.str "a"]),
    fun i _ =>
      if i = 0 then .ok [(⟨some "X", some "t"⟩, 2), (⟨none, none⟩, 1)]
      else .error "boom",
    true, true, .ok []⟩

/-- Two extracted entities; the first lookup succeeds, the second raises. -/
def envPartial : Env :=
  ⟨.ok (.arr [.str "a", .str "b"]),
    fun i _ => if i = 0 then .ok [(⟨some "A", none⟩, 1)] else .error "boom",
    true, true, .ok []⟩

/-- `envPartial` with every failed lookup replaced by an empty success. -/
def envPartialHealed : Env :=
  ⟨envPartial.extractionResult, fun i e => errToEmpty (envPartial.lookup i e),
    envPartial.hasVectorstore, envPartial.hasNeo4j, envPartial.graphResult⟩

/-! ### Helper lemmas about the dedup dict and the sort -/

theorem mem_upsert {m : List MatchedEntity} {r x : MatchedEntity}
    (hx : x ∈ upsert m r) : x ∈ m ∨ x = r := by
  induction m with
  | nil => simpa [upsert] using hx
  | cons a m ih =>
      by_cases hn : a.name = r.name
      · by_cases hs : r.score > a.score
        · simp only [upsert, hn, if_pos rfl, if_pos hs] at hx
          rcases List.mem_cons.mp hx with h | h
          · exact Or.inr h
          · exact Or.inl (List.mem_cons_of_mem a h)
        · simp only [upsert, hn, if_pos rfl, if_neg hs] at hx
          exact Or.inl hx
      · simp only [upsert, if_neg hn] at hx
        rcases List.mem_cons.mp hx with h | h
        · exact Or.inl (h ▸ List.mem_cons_self a m)
        · rcases ih h with h' | h'
          · exact Or.inl (List.mem_cons_of_mem a h')
          · exact Or.inr h'

theorem upsert_pairwise_name {m : List MatchedEntity} (r : MatchedEntity)
    (hm : m.Pairwise (fun a b => a.name ≠ b.name)) :
    (upsert m r).Pairwise (fun a b => a.name ≠ b.name) := by
  induction m with
  | nil => simp [upsert]
  | cons a m ih =>
      rcases List.pairwise_cons.mp hm with ⟨h1, h2⟩
      by_cases hn : a.name = r.name
      · by_cases hs : r.score > a.score
        · simp only [upsert, hn, if_pos rfl, if_pos hs]
          exact List.pairwise_cons.mpr ⟨fun b hb => hn ▸ h1 b hb, h2⟩
        · simp only [upsert, hn, if_pos rfl, if_neg hs]
          exact hm
      · simp only [upsert, if_neg hn]
        refine List.pairwise_cons.mpr ⟨fun b hb => ?_, ih h2⟩
        rcases mem_upsert hb with h | h
        · exact h1 b h
        · exact h ▸ hn

theorem upsert_dom_self (m : List MatchedEntity) (r : MatchedEntity) :
    ∃ x ∈ upsert m r, x.name = r.name ∧ r.score ≤ x.score := by
  induction m with
  | nil => exact ⟨r, by simp [upsert]⟩
  | cons a m ih =>
      by_cases hn : a.name = r.name
      · by_cases hs : r.score > a.score
        · exact ⟨r, by simp [upsert, hn, hs]⟩
        · exact ⟨a, by simp [upsert, hn, hs], hn, le_of_not_lt hs⟩
      · rcases ih with ⟨x, hx, hxn, hxs⟩
        exact ⟨x, by simp [upsert, hn, hx], hxn, hxs⟩

theorem upsert_keeps_dom {m : List MatchedEntity} {n : String} {s : ℚ}
    (r : MatchedEntity) (h : ∃ x ∈ m, x.name = n ∧ s ≤ x.score) :
    ∃ x ∈ upsert m r, x.name = n ∧ s ≤ x.score := by
  induction m with
  | nil => simpa using h
  | cons a m ih =>
      rcases h with ⟨x, hx, hxn, hxs⟩
      by_cases hn : a.name = r.name
      · by_cases hs : r.score > a.score
        · rcases List.mem_cons.mp hx with h' | h'
          · refine ⟨r, by simp [upsert, hn, hs], ?_, ?_⟩
            · rw [← hn, ← h']; exact hxn
            · subst h'; exact le_of_lt (lt_of_le_of_lt hxs hs)
          · exact ⟨x, by simp [upsert, hn, hs, h'], hxn, hxs⟩
        · exact ⟨x, by simp [upsert, hn, hs, hx], hxn, hxs⟩
      · rcases List.mem_cons.mp hx with h' | h'
        · exact ⟨x, by simp [upsert, hn, h'], hxn, hxs⟩
        · rcases ih ⟨x, h', hxn, hxs⟩ with ⟨x', hx', hxn', hxs'⟩
          exact ⟨x', by simp [upsert, hn, hx'], hxn', hxs'⟩

theorem foldl_upsert_keeps_dom (rs : List MatchedEntity)
    {m : List MatchedEntity} {n : String} {s : ℚ}
    (h : ∃ x ∈ m, x.name = n ∧ s ≤ x.score) :
    ∃ x ∈ rs.foldl upsert m, x.name = n ∧ s ≤ x.score := by
  induction rs generalizing m with
  | nil => simpa using h
  | cons a rs ih => exact ih (upsert_keeps_dom a h)

theorem foldl_upsert_dom {rs : List MatchedEntity} {r' : MatchedEntity}
    (h : r' ∈ rs) (m : List MatchedEntity) :
    ∃ x ∈ rs.foldl upsert m, x.name = r'.name ∧ r'.score ≤ x.score := by
  induction rs generalizing m with
  | nil => simp at h
  | cons a rs ih =>
      rcases List.mem_cons.mp h with h' | h'
      · subst h'
        exact foldl_upsert_keeps_dom rs (upsert_dom_self m r')
      · exact ih h' (upsert m a)

theorem mem_foldl_upsert {rs m : List MatchedEntity} {x : MatchedEntity}
    (hx : x ∈ rs.foldl upsert m) : x ∈ m ∨ x ∈ rs := by
  induction rs generalizing m with
  | nil => exact Or.inl (by simpa using hx)
  | cons a rs ih =>
      rcases ih (by simpa using hx) with h | h
      · rcases mem_upsert h with h' | h'
        · exact Or.inl h'
        · exact Or.inr (h' ▸ List.mem_cons_self a rs)
      · exact Or.inr (List.mem_cons_of_mem a h)

theorem foldl_upsert_pairwise (rs : List MatchedEntity)
    {m : List MatchedEntity}
    (hm : m.Pairwise (fun a b => a.name ≠ b.name)) :
    (rs.foldl upsert m).Pairwise (fun a b => a.name ≠ b.name) := by
  induction rs generalizing m with
  | nil => simpa using hm
  | cons a rs ih => exact ih (upsert_pairwise_name a hm)

theorem dedup_pairwise_name (rs : List MatchedEntity) :
    (dedupByName rs).Pairwise (fun a b => a.name ≠ b.name) :=
  foldl_upsert_pairwise rs List.Pairwise.nil

theorem mem_dedup_sub {rs : List MatchedEntity} {x : MatchedEntity}
    (hx : x ∈ dedupByName rs) : x ∈ rs := by
  rcases mem_foldl_upsert hx with h | h
  · simp at h
  · exact h

theorem dedup_dom {rs : List MatchedEntity} {r' : MatchedEntity}
    (h : r' ∈ rs) :
    ∃ x ∈ dedupByName rs, x.name = r'.name ∧ r'.score ≤ x.score :=
  foldl_upsert_dom h []

theorem pairwise_name_eq {l : List MatchedEntity}
    (h : l.Pairwise (fun a b => a.name ≠ b.name)) {a b : MatchedEntity}
    (ha : a ∈ l) (hb : b ∈ l) (hn : a.name = b.name) : a = b := by
  induction l with
  | nil => simp at ha
  | cons c l ih =>
      rcases List.pairwise_cons.mp h with ⟨h1, h2⟩
      rcases List.mem_cons.mp ha with ha' | ha' <;>
        rcases List.mem_cons.mp hb with hb' | hb'
      · rw [ha', hb']
      · exact absurd (ha' ▸ hn) (h1 b hb')
      · exact absurd (hb' ▸ hn).symm (h1 a ha')
      · exact ih h2 ha' hb'

theorem upsert_noop {m : List MatchedEntity} {r : MatchedEntity}
    (hm : m.Pairwise (fun a b => a.name ≠ b.name)) {x : MatchedEntity}
    (hx : x ∈ m) (hn : x.name = r.name) (hs : r.score ≤ x.score) :
    upsert m r = m := by
  induction m with
  | nil => simp at hx
  | cons a m ih =>
      rcases List.pairwise_cons.mp hm with ⟨h1, h2⟩
      by_cases hna : a.name = r.name
      · have hxa : x = a := by
          rcases List.mem_cons.mp hx with h' | h'
          · exact h'
          · exact absurd (hn.trans hna.symm).symm (h1 x h')
        have : ¬ r.score > a.score := not_lt.mpr (hxa ▸ hs)
        simp [upsert, hna, this]
      · have hxm : x ∈ m := by
          rcases List.mem_cons.mp hx with h' | h'
          · exact absurd (h' ▸ hn) hna
          · exact h'
        simp [upsert, hna, ih h2 hxm]

theorem sortDesc_perm (l : List MatchedEntity) : List.Perm (sortDesc l) l :=
  List.perm_insertionSort scoreGE l

theorem sortDesc_sorted (l : List MatchedEntity) :
    (sortDesc l).Pairwise scoreGE :=
  List.sorted_insertionSort scoreGE l

/-! ### Helper lemmas about the normalizer -/

theorem stripFilter_strs (ss : List String) :
    stripFilter (ss.map JVal.str) =
      .ok ((ss.map pyStrip).filter (fun s => !(s == ""))) := by
  induction ss with
  | nil => rfl
  | cons s ss ih =>
      simp only [List.map_cons, stripFilter, ih, List.filter_cons]
      by_cases h : pyStrip s = ""
      · simp [h, Except.bind]
      · simp [h, Except.bind]

theorem stripFilter_ok_characterization :
    ∀ (xs : List JVal) (l : List String), stripFilter xs = .ok l →
      ∃ ss : List String, xs = ss.map JVal.str ∧
        l = (ss.map pyStrip).filter (fun s => !(s == "")) := by
  intro xs
  induction xs with
  | nil =>
      intro l h
      refine ⟨[], rfl, ?_⟩
      simpa [stripFilter] using h.symm
  | cons x rest ih =>
      intro l h
      cases x with
      | str s =>
          cases hr : stripFilter rest with
          | error e => simp [stripFilter, hr, Except.bind] at h
          | ok r =>
              rcases ih r hr with ⟨ss, hss, hrr⟩
              refine ⟨s :: ss, by simp [hss], ?_⟩
              simp only [stripFilter, hr, Except.bind] at h
              by_cases hs : pyStrip s = ""
              · simp only [hs, if_pos rfl] at h
                cases h
                simp [List.filter_cons, hs, hrr]
              · simp only [hs, if_neg hs] at h
                cases h
                simp [List.filter_cons, hs, hrr]
      | num n => simp [stripFilter] at h
      | bool b => simp [stripFilter] at h
      | null => simp [stripFilter] at h
      | arr ys => simp [stripFilter] at h
      | obj kvs => simp [stripFilter] at h

theorem flat_entities_eq_collected (v : JVal) :
    flat_entities v = stripFilter (collected v) := by
  cases v with
  | arr xs =>
      by_cases h : pyStrAll xs = true
      · simp [flat_entities, collected, h]
      · simp [flat_entities, collected, h]
  | obj kvs => rfl
  | str s => rfl
  | num n => rfl
  | bool b => rfl
  | null => rfl

/-! ### Helper lemmas about lookup groups -/

theorem buildAll_errToEmpty {env env' : Env}
    (hl : ∀ i e, env'.lookup i e = errToEmpty (env.lookup i e)) :
    ∀ (j : Nat) (sel : List String),
      buildAllResults (lookupPairs env' j sel) =
        buildAllResults (lookupPairs env j sel) := by
  intro j sel
  induction sel generalizing j with
  | nil => rfl
  | cons e es ih =>
      simp only [lookupPairs]
      rw [hl j e]
      cases h : env.lookup j e with
      | error msg => simp [errToEmpty, buildAllResults, ih, rowsOf]
      | ok g => simp [errToEmpty, buildAllResults, ih]

theorem mem_lookupPairs (env : Env) :
    ∀ (sel : List String) (j i : Nat) (e : String),
      sel.get? i = some e →
      (e, env.lookup (j + i) e) ∈ lookupPairs env j sel := by
  intro sel
  induction sel with
  | nil => intro j i e h; simp at h
  | cons a es ih =>
      intro j i e h
      cases i with
      | zero =>
          simp only [List.get?] at h
          cases h
          simpa [lookupPairs] using Or.inl rfl
      | succ i =>
          simp only [List.get?] at h
          have := ih (j + 1) i e h
          have harith : j + 1 + i = j + (i + 1) := by omega
          rw [harith] at this
          simp [lookupPairs, this]

theorem mem_buildAllResults
    {pairs : List (String × Except String (List (DocMeta × ℚ)))}
    {e : String} {group : List (DocMeta × ℚ)}
    (h : (e, Except.ok group) ∈ pairs) :
    ∀ row ∈ rowsOf e group, row ∈ buildAllResults pairs := by
  induction pairs with
  | nil => simp at h
  | cons p rest ih =>
      intro row hrow
      rcases List.mem_cons.mp h with h' | h'
      · rcases p with ⟨e', g'⟩
        cases h'
        exact List.mem_append_left _ hrow
      · rcases p with ⟨e', g'⟩
        cases g' with
        | error msg => simpa [buildAllResults] using ih h' row hrow
        | ok g => exact List.mem_append_right _ (ih h' row hrow)

/-! ### Helper lemmas about rendering -/

theorem joinStr_length_ge (sep a : String) (l : List String) :
    a.length ≤ (joinStr sep (a :: l)).length := by
  cases l with
  | nil => simp [joinStr]
  | cons b l => simp [joinStr, String.length_append]; omega

theorem string_of_length_zero {s : String} (h : s.length = 0) : s = "" := by
  cases s with
  | mk data =>
      cases data with
      | nil => rfl
      | cons c cs => simp [String.length] at h

theorem renderRecord_ne_empty (r : GraphRecord) : ¬ renderRecord r = "" := by
  intro h
  have hlen : (renderRecord r).length = 0 := by rw [h]; rfl
  rw [renderRecord] at hlen
  simp only [String.length_append] at hlen
  have h3 : (" -[" : String).length = 3 := rfl
  have h4 : ("]-> " : String).length = 4 := rfl
  omega

theorem renderRelations_ne_empty {records : List GraphRecord}
    (h : ¬ records = []) : ¬ renderRelations records = "" := by
  cases records with
  | nil => exact absurd rfl h
  | cons r rest =>
      intro he
      have hle := joinStr_length_ge "\n" (renderRecord r) (rest.map renderRecord)
      rw [show renderRelations (r :: rest) =
            joinStr "\n" (renderRecord r :: rest.map renderRecord) from rfl] at he
      rw [he] at hle
      simp only [String.length] at hle
      exact renderRecord_ne_empty r
        (string_of_length_zero (Nat.le_zero.mp hle))

/-! ### Claim theorems -/

/-- Claim C3, counterexample: the Entity Normalizer does not deduplicate.
The flat string payload `["a", "a"]` is normalized to `["a", "a"]`, which
contains the same string twice. -/
theorem flat_entities_duplicates_counterexample :
    flat_entities (.arr [.str "a", .str "a"]) = .ok ["a", "a"] ∧
      ¬ (["a", "a"] : List String).Nodup :=
  ⟨rfl, by decide⟩

/-- Claim C3 (amended): for every extraction payload of any shape — flat
string list, object list, category map or anything else — whenever the
Entity Normalizer returns a list, that list is exactly the stripped form
of every collected occurrence whose stripped form is non-empty, in input
order, case-sensitively and with no deduplication: duplicate occurrences
in the payload survive to the output. -/
theorem flat_entities_order_no_dedup (v : JVal) (l : List String)
    (h : flat_entities v = .ok l) :
    ∃ ss : List String, collected v = ss.map JVal.str ∧
      l = (ss.map pyStrip).filter (fun s => !(s == "")) := by
  rw [flat_entities_eq_collected] at h
  exact stripFilter_ok_characterization (collected v) l h

/-- Witness for C3's amended theorem at a mixed object-list payload whose
two items collect to the duplicate occurrences " a " and "a". -/
theorem flat_entities_order_no_dedup_witness :
    ∃ ss : List String,
      collected (.arr [.obj [("name", .str " a ")], .str "a"]) =
        ss.map JVal.str ∧
      ["a", "a"] = (ss.map pyStrip).filter (fun s => !(s == "")) :=
  flat_entities_order_no_dedup (.arr [.obj [("name", .str " a ")], .str "a"])
    ["a", "a"] rfl

/-- Claim C4, counterexample: the Entity Normalizer can raise.  On the
object-list payload `[{"name": 42}]` the truthy non-string name value 42
reaches `e.strip()`, which raises `AttributeError`. -/
theorem flat_entities_raises_counterexample :
    flat_entities (.arr [.obj [("name", .num 42)]]) =
      .error "AttributeError: strip on a non-string" :=
  rfl

/-- Claim C4 (amended): for every extraction payload all of whose collected
name values are strings — which covers flat string lists, object lists and
category maps with string-valued name fields, and every unrecognized shape
(whose collected list is empty) — the Entity Normalizer does not raise and
returns exactly the stripped non-empty occurrences in order; but a payload
whose collected values include a truthy non-string raises instead. -/
theorem flat_entities_string_payload (v : JVal) (ss : List String)
    (h : collected v = ss.map JVal.str) :
    flat_entities v = .ok ((ss.map pyStrip).filter (fun s => !(s == ""))) := by
  rw [flat_entities_eq_collected, h, stripFilter_strs]

/-- Witness for C4's amended theorem at a concrete category-map payload. -/
theorem flat_entities_string_payload_witness :
    flat_entities
        (.obj [("person", .arr [.str " musk ", .obj [("name", .str "SpaceX")]])]) =
      .ok ["musk", "SpaceX"] := by
  have h := flat_entities_string_payload
    (.obj [("person", .arr [.str " musk ", .obj [("name", .str "SpaceX")]])])
    [" musk ", "SpaceX"] rfl
  rw [h]
  rfl

/-- Claim C5: whenever the Entity Extractor yields zero entities, `search`
short-circuits: the only external call issued is the extraction call (no
vector lookup, no graph query) and the result is the fallback
`SearchResult` with empty `context_text`, empty `entities`, empty
`matched_entities` and the sentinel `"无实体"` in `graph_context`. -/
theorem search_no_entities_short_circuit (env : Env) (query : String)
    (top_k : Nat) (h : extract_entities env query = []) :
    search env query top_k =
      (⟨"", [], [], "无实体"⟩, [CallEvent.extractCall query]) := by
  simp [search, h]

/-- Witness for C5 in an environment whose extraction call raises. -/
theorem search_no_entities_short_circuit_witness :
    search envFail "q" 5 =
      (⟨"", [], [], "无实体"⟩, [CallEvent.extractCall "q"]) :=
  search_no_entities_short_circuit envFail "q" 5 rfl

/-- Claim C7, counterexample: a graph query that returns zero records does
not yield an empty value; `_neo4j_get_graph` returns the non-empty
sentinel string `"无直接关联信息"`. -/
theorem neo4j_empty_result_counterexample :
    (neo4jGetGraph envOne [⟨"A", 1, "t"⟩]).1 = "无直接关联信息" ∧
      ¬ ("无直接关联信息" : String) = "" :=
  ⟨rfl, by decide⟩

/-- Claim C7 (amended): an empty matched-entity seed set yields the empty
string without issuing any store query; a graph query that returns zero
records yields the fixed sentinel string `"无直接关联信息"` (not an empty
value); neither case raises. -/
theorem neo4j_empty_cases (env : Env) (matched : List MatchedEntity) :
    (matched = [] → neo4jGetGraph env matched = ("", [])) ∧
    (env.hasNeo4j = true → ¬ matched = [] → env.graphResult = .ok [] →
      neo4jGetGraph env matched =
        ("无直接关联信息",
          [CallEvent.graph ((matched.take 3).map (fun e => e.name))])) := by
  constructor
  · intro h; simp [neo4jGetGraph, h]
  · intro h1 h2 h3; simp [neo4jGetGraph, h1, h2, h3]

/-- Witness for C7's amended theorem: both cases at concrete inputs. -/
theorem neo4j_empty_cases_witness :
    neo4jGetGraph envOne [] = ("", []) ∧
    neo4jGetGraph envOne [⟨"A", 1, "t"⟩] =
      ("无直接关联信息", [CallEvent.graph ["A"]]) :=
  ⟨(neo4j_empty_cases envOne []).1 rfl,
    (neo4j_empty_cases envOne [⟨"A", 1, "t"⟩]).2 rfl (by decide) rfl⟩

/-- Claim C8: the assembled context contains the entity line (listing at
most the first three matched names) exactly when `matched_entities` is
non-empty, and the relation section (each relation rendered as
`source -[rel]-> target`, newline-joined) exactly when the relation data
is non-empty; an empty section is omitted entirely, and when both are
present the entity line precedes the relation section, newline-joined. -/
theorem assemble_context_sections (matched : List MatchedEntity)
    (records : List GraphRecord) :
    (matched = [] → records = [] →
      assembleContext matched (renderRelations records) = "") ∧
    (¬ matched = [] → records = [] →
      assembleContext matched (renderRelations records) = entityLine matched) ∧
    (matched = [] → ¬ records = [] →
      assembleContext matched (renderRelations records) =
        "知识图谱关系：\n" ++ renderRelations records) ∧
    (¬ matched = [] → ¬ records = [] →
      assembleContext matched (renderRelations records) =
        entityLine matched ++ "\n" ++
          ("知识图谱关系：\n" ++ renderRelations records)) := by
  refine ⟨?_, ?_, ?_, ?_⟩
  · intro h1 h2
    subst h1; subst h2
    rfl
  · intro h1 h2
    subst h2
    simp [assembleContext, h1, renderRelations, joinStr]
  · intro h1 h2
    subst h1
    simp [assembleContext, renderRelations_ne_empty h2, joinStr]
  · intro h1 h2
    simp [assembleContext, h1, renderRelations_ne_empty h2, joinStr]

/-- Witness for C8 at one matched entity and one relation. -/
theorem assemble_context_sections_witness :
    assembleContext [⟨"A", 1, "t"⟩] (renderRelations [⟨"s", "r", "t"⟩]) =
      entityLine [⟨"A", 1, "t"⟩] ++ "\n" ++
        ("知识图谱关系：\n" ++ renderRelations [⟨"s", "r", "t"⟩]) :=
  (assemble_context_sections [⟨"A", 1, "t"⟩] [⟨"s", "r", "t"⟩]).2.2.2
    (by decide) (by decide)

/-- Claim C9: the Similarity Matcher issues exactly one lookup per entity
among at most the first three input entities, each lookup with `k = 2`;
with no vector store or an empty input it issues none, so the issued-call
list always has length at most three. -/
theorem qdrant_lookup_fanout (env : Env) (entities : List String)
    (top_k : Nat) :
    (qdrantMatch env entities top_k).2 =
      (if env.hasVectorstore = false ∨ entities = [] then []
        else (entities.take 3).map (fun e => CallEvent.vector e 2)) ∧
    (qdrantMatch env entities top_k).2.length ≤ 3 := by
  constructor
  · by_cases h : env.hasVectorstore = false ∨ entities = [] <;>
      simp [qdrantMatch, h]
  · by_cases h : env.hasVectorstore = false ∨ entities = []
    · simp [qdrantMatch, h]
    · simp [qdrantMatch, h, List.length_take]

/-- Claim C1: for every environment — in particular whatever combination of
extraction, vector-lookup and graph-query failures it contains — `search`
returns normally: the exception-level pipeline never produces an error,
and its value is the `SearchResult` of the total model. -/
theorem search_never_raises (env : Env) (query : String) (top_k : Nat) :
    searchE env query top_k = .ok (search env query top_k).1 := by
  unfold searchE search extract_entitiesE extract_entities qdrantMatchE
    neo4jGetGraphE
  cases env.extractionResult.bind flat_entities with
  | ok l => by_cases hl : l = [] <;> simp [hl]
  | error e => simp

/-- Claim C2: the merged `matched_entities` list contains no two entries
with the same name, is sorted by score descending, has length at most
`top_k`, and each surviving entry is an observed candidate whose score
dominates every observed candidate with the same name (maximum, not
average or sum). -/
theorem qdrant_match_merge (env : Env) (entities : List String)
    (top_k : Nat) :
    (qdrantMatch env entities top_k).1.Pairwise (fun a b => a.name ≠ b.name) ∧
    (qdrantMatch env entities top_k).1.Pairwise (fun a b => b.score ≤ a.score) ∧
    (qdrantMatch env entities top_k).1.length ≤ top_k ∧
    ∀ r ∈ (qdrantMatch env entities top_k).1,
      r ∈ allResults env entities ∧
        ∀ r' ∈ allResults env entities, r'.name = r.name → r'.score ≤ r.score := by
  by_cases h : env.hasVectorstore = false ∨ entities = []
  · simp [qdrantMatch, h]
  · have hres : (qdrantMatch env entities top_k).1 =
        (sortDesc (dedupByName (allResults env entities))).take top_k := by
      simp [qdrantMatch, h, allResults]
    rw [hres]
    refine ⟨?_, ?_, ?_, ?_⟩
    · exact (((sortDesc_perm _).pairwise_iff (fun hab => Ne.symm hab)).mpr
        (dedup_pairwise_name _)).sublist (List.take_sublist _ _)
    · exact (sortDesc_sorted _).sublist (List.take_sublist _ _)
    · simp [List.length_take]
    · intro r hr
      have hr1 : r ∈ sortDesc (dedupByName (allResults env entities)) :=
        List.take_subset _ _ hr
      have hr2 : r ∈ dedupByName (allResults env entities) :=
        (sortDesc_perm _).subset hr1
      refine ⟨mem_dedup_sub hr2, ?_⟩
      intro r' hr' hname
      rcases dedup_dom hr' with ⟨x, hx, hxn, hxs⟩
      have hrx : r = x :=
        pairwise_name_eq (dedup_pairwise_name _) hr2 hx (hname.symm.trans hxn.symm)
      rw [hrx]
      exact hxs

/-- Witness for C2: the surviving "X" entry is an observed candidate and
its own score bounds the observed "X" scores. -/
theorem qdrant_match_merge_witness :
    (⟨"X", 2, "t"⟩ : MatchedEntity) ∈ allResults envOne ["a"] ∧ (2 : ℚ) ≤ 2 := by
  have h := qdrant_match_merge envOne ["a"] 5
  have hr : (⟨"X", 2, "t"⟩ : MatchedEntity) ∈ (qdrantMatch envOne ["a"] 5).1 := by
    decide
  exact ⟨(h.2.2.2 _ hr).1, (h.2.2.2 _ hr).2 ⟨"X", 2, "t"⟩ (h.2.2.2 _ hr).1 rfl⟩

/-- Claim C6: failed per-entity lookups are exactly skipped — replacing
every failed lookup outcome by an empty success changes nothing in the
match result — and every row of every successful lookup group still
reaches the merged `all_results` pool. -/
theorem qdrant_partial_failure (env env' : Env) (entities : List String)
    (top_k : Nat)
    (hl : ∀ i e, env'.lookup i e = errToEmpty (env.lookup i e))
    (hv : env'.hasVectorstore = env.hasVectorstore) :
    qdrantMatch env' entities top_k = qdrantMatch env entities top_k ∧
    ∀ (i : Nat) (e : String) (group : List (DocMeta × ℚ)),
      (entities.take 3).get? i = some e →
      env.lookup i e = .ok group →
      ∀ row ∈ rowsOf e group, row ∈ allResults env entities := by
  constructor
  · by_cases h : env.hasVectorstore = false ∨ entities = []
    · have h' : env'.hasVectorstore = false ∨ entities = [] := by
        rcases h with h | h
        · exact Or.inl (hv.trans h)
        · exact Or.inr h
      simp [qdrantMatch, h, h']
    · have h' : ¬ (env'.hasVectorstore = false ∨ entities = []) := by
        rw [hv]; exact h
      simp [qdrantMatch, h, h', buildAll_errToEmpty hl]
  · intro i e group hget hok row hrow
    have hpair := mem_lookupPairs env (entities.take 3) 0 i e hget
    rw [Nat.zero_add, hok] at hpair
    exact mem_buildAllResults hpair row hrow

/-- Witness for C6: one of two lookups fails; healing the failure changes
nothing, and the successful row is in the merged pool. -/
theorem qdrant_partial_failure_witness :
    qdrantMatch envPartialHealed ["a", "b"] 5 =
      qdrantMatch envPartial ["a", "b"] 5 ∧
    (⟨"A", 1, "unknown"⟩ : MatchedEntity) ∈ allResults envPartial ["a", "b"] := by
  have h := qdrant_partial_failure envPartial envPartialHealed ["a", "b"] 5
    (fun i e => rfl) rfl
  exact ⟨h.1, h.2 0 "a" [(⟨some "A", none⟩, 1)] rfl rfl _ (by decide)⟩

/-- Claim C10: the merge breaks ties deterministically.  A later candidate
whose score does not strictly exceed an earlier same-named candidate's
score leaves the dedup dict unchanged (the first observed entry survives),
and the descending sort is stable: two entries with equal scores keep
their first-observed relative order. -/
theorem merge_tie_breaking (l₁ l₂ : List MatchedEntity) (y : MatchedEntity)
    (l : List MatchedEntity) (x z : MatchedEntity) :
    ((∃ w ∈ l₁, w.name = y.name ∧ y.score ≤ w.score) →
      dedupByName (l₁ ++ y :: l₂) = dedupByName (l₁ ++ l₂)) ∧
    (List.Sublist [x, z] l → x.score = z.score →
      List.Sublist [x, z] (sortDesc l)) := by
  constructor
  · rintro ⟨w, hw, hwn, hws⟩
    rcases dedup_dom hw with ⟨v, hv, hvn, hvs⟩
    have hnoop : upsert (dedupByName l₁) y = dedupByName l₁ :=
      upsert_noop (dedup_pairwise_name l₁) hv (hvn.trans hwn) (le_trans hws hvs)
    unfold dedupByName at hnoop ⊢
    rw [List.foldl_append, List.foldl_append, List.foldl_cons, hnoop]
  · intro hsub hscore
    exact List.pair_sublist_insertionSort (le_of_eq hscore.symm) hsub

/-- Witness for C10: a same-name same-score later entry is dropped, and
two equal-score entries keep their order through the sort. -/
theorem merge_tie_breaking_witness :
    dedupByName ([⟨"A", 2, "u"⟩] ++ ⟨"A", 2, "v"⟩ :: []) =
      dedupByName ([⟨"A", 2, "u"⟩] ++ []) ∧
    List.Sublist [⟨"A", 1, "u"⟩, ⟨"B", 1, "v"⟩]
      (sortDesc [⟨"A", 1, "u"⟩, ⟨"B", 1, "v"⟩]) := by
  have h := merge_tie_breaking [⟨"A", 2, "u"⟩] [] ⟨"A", 2, "v"⟩
    [⟨"A", 1, "u"⟩, ⟨"B", 1, "v"⟩] ⟨"A", 1, "u"⟩ ⟨"B", 1, "v"⟩
  exact ⟨h.1 ⟨⟨"A", 2, "u"⟩, by decide, rfl, le_refl _⟩,
    h.2 (List.Sublist.refl _) rfl⟩
